import Mathlib

/-!
Verification of the nuan-utils TypeScript library (shallow embedding).

Numbers are modelled exactly: a JavaScript float is represented by the pair of
its exact rational value and its canonical decimal string rendering (the value
of `num.toString()`), since the library mixes value-level arithmetic with
string-level inspection of that rendering.  JavaScript `Math.round` is
half-up rounding, `Math.floor` is the rational floor.  String-indexing
quirks of JavaScript are modelled faithfully: reading an array out of range
yields `undefined`, which string concatenation renders as "undefined";
`parseInt` of a non-digit is `NaN`, modelled as `none`.

Source files embedded below: `src/amount.ts` (the repository also carries a
second copy of the amount module in which `priceUppercase` takes a trailing
suffix parameter `format` defaulting to "整"; the two copies are otherwise
identical, and the one-parameter copy behaves exactly like the two-parameter
copy at the default argument, so the embedding follows the two-parameter
copy), `src/formData.ts` (arithmetic helpers and `numberToChinese`), and
`src/coordtransform.ts` (coordinate transforms, parameterized over the
transcendental `Math` primitives, which have no exact rational embedding).
-/

namespace NuanUtils

/-- JavaScript `parseInt(d, 10)` applied to a single character: a digit
character gives its value, anything else gives `NaN` (modelled as `none`). -/
def parseDigit (c : Char) : Option ℕ :=
  if c.isDigit then some (c.toNat - 48) else none

/-- `upperCaseNums[digit]` from `priceUppercase`, with JavaScript semantics:
an out-of-range or `NaN` index reads `undefined`, which string concatenation
turns into the text "undefined". -/
def jsNums (d : Option ℕ) : String :=
  match d with
  | some k => ["零", "壹", "贰", "叁", "肆", "伍", "陆", "柒", "捌", "玖"].getD k "undefined"
  | none => "undefined"

/-- `units[posInGroup]` from `priceUppercase` (`['', '拾', '佰', '仟']`),
again with `undefined` rendered as "undefined" past the end. -/
def jsUnits (p : ℕ) : String :=
  if p = 0 then "" else if p = 1 then "拾" else if p = 2 then "佰"
  else if p = 3 then "仟" else "undefined"

/-- `bigUnits[groupIdx] || ''` from `priceUppercase`: `['', '万', '亿']`,
and the `|| ''` turns the out-of-range `undefined` into the empty string. -/
def jsBigUnits (g : ℕ) : String :=
  if g = 1 then "万" else if g = 2 then "亿" else ""

/-- The grouping of `convertInteger`: the loop slices the reversed digit
array into consecutive groups `[start, min(start + 4, len))` of four, the
last group possibly shorter. -/
def chunk4 {α : Type} : List α → List (List α)
  | [] => []
  | [a] => [[a]]
  | [a, b] => [[a, b]]
  | [a, b, c] => [[a, b, c]]
  | a :: b :: c :: d :: rest => [a, b, c, d] :: chunk4 rest

/-- The inner loop of `convertInteger` over one 4-digit group, low position
first.  State is `(groupResult, hasValue, needZero)`; `pos` is `posInGroup`. -/
def convertGroupAux : List (Option ℕ) → ℕ → String × Bool × Bool → String × Bool × Bool
  | [], _, st => st
  | d :: ds, pos, (gr, hv, nz) =>
    if d ≠ some 0 then
      let gr1 := if nz ∧ hv then "零" ++ gr else gr
      let gr2 := if d = some 1 ∧ pos = 1 then "拾" ++ gr1 else jsNums d ++ jsUnits pos ++ gr1
      convertGroupAux ds (pos + 1) (gr2, true, false)
    else if hv then convertGroupAux ds (pos + 1) (gr, hv, true)
    else convertGroupAux ds (pos + 1) (gr, hv, nz)

/-- The outer loop of `convertInteger` over the groups, low group first.
`res` is `result`; the condition `groupResult.indexOf('零') !== 0` is
"`groupResult` does not start with 零". -/
def convertIntegerAux : List (List (Option ℕ)) → ℕ → String → String
  | [], _, res => res
  | g :: gs, gIdx, res =>
    let st := convertGroupAux g 0 ("", false, false)
    let gr2 := if st.2.1 ∧ 0 < gIdx then st.1 ++ jsBigUnits gIdx else st.1
    let res2 := if st.2.1 then
        gr2 ++ (if res ≠ "" ∧ st.2.2 ∧ gr2.data.head? ≠ some '零' then "零" ++ res else res)
      else res
    convertIntegerAux gs (gIdx + 1) res2

/-- `convertInteger` from `priceUppercase`: renders the integer part of the
amount.  `n === '0' || !n` returns the empty string; otherwise the digit
characters are parsed, reversed, grouped by four and converted. -/
def convertInteger (s : String) : String :=
  if s = "0" ∨ s = "" then ""
  else convertIntegerAux (chunk4 ((s.data.map parseDigit).reverse)) 0 ""

/-- The loop of `convertDecimal`: position `i` indexes
`decimalUnits = ['角', '分', '厘', '毫']`. -/
def jsDecUnits (i : ℕ) : String :=
  if i = 0 then "角" else if i = 1 then "分" else if i = 2 then "厘"
  else if i = 3 then "毫" else "undefined"

def convertDecimalAux : List Char → ℕ → String
  | [], _ => ""
  | c :: cs, i =>
    (if parseDigit c ≠ some 0 then jsNums (parseDigit c) ++ jsDecUnits i else "") ++
      convertDecimalAux cs (i + 1)

/-- `convertDecimal` from `priceUppercase`: renders at most the first four
fractional digits with units 角/分/厘/毫, skipping zero digits. -/
def convertDecimal (s : String) : String :=
  convertDecimalAux (s.data.take 4) 0

/-- `priceUppercase(val, format = '整')`.  The numeric input is given by the
decimal rendering of its absolute value, split at the dot exactly as
`num.toString().split('.')` does, together with the sign `num < 0`:
`Math.abs` runs before `toString` in the source, so the rendering carries no
sign.  `num === 0` holds exactly when the rendering of the absolute value is
`("0", "")`.  JavaScript string truthiness is nonemptiness. -/
def priceUppercase (neg : Bool) (ip dp : String) (format : String := "整") : String :=
  if ip = "0" ∧ dp = "" then "零元整"
  else
    let integerStr := convertInteger ip
    let decimalStr := convertDecimal dp
    let r1 : String := if neg then "负" else ""
    if integerStr ≠ "" then
      r1 ++ integerStr ++ "元" ++
        (if decimalStr = "" then (if format ≠ "" then format else "") else decimalStr)
    else r1 ++ decimalStr

/-! ## formData.ts: exact arithmetic helpers

A JavaScript number is a pair of its exact rational value and its canonical
`toString()` rendering. -/

structure JsNum where
  val : ℚ
  repr : String

/-- `str.split('.')[1]` as a list of characters: the segment strictly between
the first dot and the following dot (empty when there is no dot). -/
def splitDot1 (l : List Char) : List Char :=
  ((l.dropWhile (· ≠ '.')).drop 1).takeWhile (· ≠ '.')

/-- The private `getDecimalPlaces` of `formData.ts` (lines 395-401): it only
looks for a dot in the rendering and never decodes an exponent. -/
def getDecimalPlacesFD (n : JsNum) : ℕ :=
  if '.' ∈ n.repr.data then (splitDot1 n.repr.data).length else 0

/-- Splits a character list at the first occurrence of the two-character
separator "e-", as `str.split('e-')` does for the pieces the code reads:
the first component is `parts[0]`, the second is `parts[1]` when the
separator occurs (up to a further separator), else `none`. -/
def eDashSplitAux : List Char → List Char × Option (List Char)
  | [] => ([], none)
  | 'e' :: '-' :: rest => ([], some rest)
  | c :: rest =>
    let p := eDashSplitAux rest
    (c :: p.1, p.2)

/-- `parseInt(s, 10)` on the digit strings the code feeds it: the value of
the longest digit prefix. -/
def jsParseIntNat (l : List Char) : ℕ :=
  (l.takeWhile (·.isDigit)).foldl (fun a c => a * 10 + (c.toNat - 48)) 0

/-- The exported `getDecimalPlaces` of `amount.ts` (lines 52-62):
`Math.floor(num) === num` gives 0; a rendering with a dot and no "e-" gives
the length after the dot; a rendering with "e-" gives the exponent plus the
length of the fractional part of the mantissa. -/
def getDecimalPlacesAmount (n : JsNum) : ℕ :=
  if (⌊n.val⌋ : ℚ) = n.val then 0
  else
    let l := n.repr.data
    let p := eDashSplitAux l
    if '.' ∈ l ∧ p.2 = none then (splitDot1 l).length
    else
      match p.2 with
      | some rest => jsParseIntNat (eDashSplitAux rest).1 + (splitDot1 p.1).length
      | none => 0

/-- JavaScript `Math.round`: half-up rounding. -/
def jsRound (q : ℚ) : ℤ := ⌊q + 1 / 2⌋

/-- `addition(num1, num2, decimal?)` from `formData.ts`. -/
def addition (a b : JsNum) (decimal : Option ℕ) : ℚ :=
  let maxPlaces := max (getDecimalPlacesFD a) (getDecimalPlacesFD b)
  let multiplier : ℚ := 10 ^ maxPlaces
  let result := ((jsRound (a.val * multiplier) + jsRound (b.val * multiplier) : ℤ) : ℚ) / multiplier
  match decimal with
  | some d => if 0 < d then ((jsRound (result * 10 ^ d) : ℤ) : ℚ) / 10 ^ d else result
  | none => result

/-- `subtraction(num1, num2, decimal?)` from `formData.ts`. -/
def subtraction (a b : JsNum) (decimal : Option ℕ) : ℚ :=
  let maxPlaces := max (getDecimalPlacesFD a) (getDecimalPlacesFD b)
  let multiplier : ℚ := 10 ^ maxPlaces
  let result := ((jsRound (a.val * multiplier) - jsRound (b.val * multiplier) : ℤ) : ℚ) / multiplier
  match decimal with
  | some d => if 0 < d then ((jsRound (result * 10 ^ d) : ℤ) : ℚ) / 10 ^ d else result
  | none => result

/-- `multiplication(num1, num2, decimal?)` from `formData.ts`. -/
def multiplication (a b : JsNum) (decimal : Option ℕ) : ℚ :=
  let p1 := getDecimalPlacesFD a
  let p2 := getDecimalPlacesFD b
  let result := ((jsRound (a.val * 10 ^ p1) * jsRound (b.val * 10 ^ p2) : ℤ) : ℚ) / 10 ^ (p1 + p2)
  match decimal with
  | some d => if 0 < d then ((jsRound (result * 10 ^ d) : ℤ) : ℚ) / 10 ^ d else result
  | none => result

/-- `divisionOperation(num1, num2, decimal?)` from `formData.ts`: throws on a
zero divisor, otherwise divides the two rounded scaled operands.  (When the
rounded scaled divisor is zero JavaScript returns an infinity; rational
division by zero returns 0; neither raises.) -/
def divisionOperation (a b : JsNum) (decimal : Option ℕ) : Except String ℚ :=
  if b.val = 0 then Except.error "Division by zero is not allowed"
  else
    let maxPlaces := max (getDecimalPlacesFD a) (getDecimalPlacesFD b)
    let result := ((jsRound (a.val * 10 ^ maxPlaces) : ℤ) : ℚ) / ((jsRound (b.val * 10 ^ maxPlaces) : ℤ) : ℚ)
    Except.ok (match decimal with
      | some d => if 0 < d then ((jsRound (result * 10 ^ d) : ℤ) : ℚ) / 10 ^ d else result
      | none => result)

/-- Modelled from the spec: IEEE negation `-b` at the level of our exact
model.  The value negates; the canonical rendering gains or loses a leading
minus sign, except that the negation of zero still renders "0". -/
def negStr (s : String) : String :=
  if s = "0" then "0"
  else if s.data.head? = some '-' then ⟨s.data.drop 1⟩
  else "-" ++ s

def jsNeg (n : JsNum) : JsNum := ⟨-n.val, negStr n.repr⟩

/-- Value of a digit list read high digit first. -/
def digitsVal (l : List ℕ) : ℕ := l.foldl (fun a d => a * 10 + d) 0

/-! ## formData.ts: `numberToChinese` -/

/-- A model of JavaScript `Number(string)` on the decimal grammar
`[+-]? digits [. digits]? [(e|E) [+-]? digits]?`: `some` value on that
grammar, `none` (`NaN`) otherwise.  (Whitespace trimming, hex literals and
`Infinity` are not modelled; the code only consults this after its
`!numStr` emptiness guard.) -/
def jsNumberOf (s : String) : Option ℚ :=
  let l := s.data
  let sgn : ℚ × List Char :=
    match l with
    | '-' :: t => (-1, t)
    | '+' :: t => (1, t)
    | _ => (1, l)
  let ipr := sgn.2.span (·.isDigit)
  let fpr : List Char × List Char :=
    match ipr.2 with
    | '.' :: t => t.span (·.isDigit)
    | _ => ([], ipr.2)
  if ipr.1 = [] ∧ fpr.1 = [] then none
  else
    let mant : ℚ := sgn.1 * ((digitsVal (ipr.1.map (fun c => c.toNat - 48)) : ℚ) +
      (digitsVal (fpr.1.map (fun c => c.toNat - 48)) : ℚ) / 10 ^ fpr.1.length)
    match fpr.2 with
    | [] => some mant
    | 'e' :: t =>
      let esgn : ℤ × List Char :=
        match t with
        | '-' :: r => (-1, r)
        | '+' :: r => (1, r)
        | _ => (1, t)
      let ed := esgn.2.span (·.isDigit)
      if ed.1 = [] ∨ ed.2 ≠ [] then none
      else some (mant * (10 : ℚ) ^ (esgn.1 * (digitsVal (ed.1.map (fun c => c.toNat - 48)) : ℤ)))
    | 'E' :: t =>
      let esgn : ℤ × List Char :=
        match t with
        | '-' :: r => (-1, r)
        | '+' :: r => (1, r)
        | _ => (1, t)
      let ed := esgn.2.span (·.isDigit)
      if ed.1 = [] ∨ ed.2 ≠ [] then none
      else some (mant * (10 : ℚ) ^ (esgn.1 * (digitsVal (ed.1.map (fun c => c.toNat - 48)) : ℤ)))
    | _ => none

/-- JavaScript truncation toward zero, used by the `%` operator. -/
def jsTrunc (q : ℚ) : ℤ := if 0 ≤ q then ⌊q⌋ else -⌊-q⌋

/-- JavaScript `%`: `a - b * trunc(a / b)`. -/
def jsMod (a b : ℚ) : ℚ := a - b * (jsTrunc (a / b) : ℚ)

/-- `digits` array of `numberToChinese`. -/
def digitsCn : List String := ["零", "一", "二", "三", "四", "五", "六", "七", "八", "九"]

/-- `digits[z]` for an integer index, with `undefined` out of range. -/
def jsIdxZ (z : ℤ) : String :=
  if 0 ≤ z ∧ z < 10 then digitsCn.getD z.toNat "undefined" else "undefined"

/-- `digits[q]` for a number index: a fractional index reads `undefined`. -/
def jsIdxQ (q : ℚ) : String :=
  if (⌊q⌋ : ℚ) = q then jsIdxZ ⌊q⌋ else "undefined"

/-- The segment loop of `numberToChinese` once `value` has become an integer
(after the first `Math.floor(value / 10000)` every iterate is a nonnegative
integer, `value % 10000` is `n % 10000` and `Math.floor(value / 10000)` is
`n / 10000`). -/
def ntcSegN (n : ℕ) : List ℚ :=
  if n = 0 then [] else ((n % 10000 : ℕ) : ℚ) :: ntcSegN (n / 10000)
termination_by n
decreasing_by exact Nat.div_lt_self (Nat.pos_of_ne_zero (by assumption)) (by norm_num)

/-- `while (value > 0) { segments.push(String(value % 10000)); value =
Math.floor(value / 10000); }`, low segment first.  The segment strings are
read back with `Number`, which recovers the pushed value exactly. -/
def ntcSegments (q : ℚ) : List ℚ :=
  if 0 < q then jsMod q 10000 :: ntcSegN (⌊q / 10000⌋).toNat else []

/-- The per-segment conversion of `numberToChinese`: thousands, hundreds,
tens and units places with the skipped-zero placeholder logic; a tens digit
of 1 is bare 十 only in the sole segment of a single-segment number. -/
def ntcSegText (segCount : ℕ) (index : ℕ) (segV : ℚ) : String :=
  if segV = 0 then ""
  else
    let qian : ℤ := ⌊segV / 1000⌋
    let s1 : String × Bool :=
      if 0 < qian then (jsIdxZ qian ++ "千", false)
      else if index < segCount - 1 ∧ 0 < segV then ("", true) else ("", false)
    let bai : ℤ := ⌊jsMod segV 1000 / 100⌋
    let s2 : String × Bool :=
      if 0 < bai then ((if s1.2 then s1.1 ++ "零" else s1.1) ++ jsIdxZ bai ++ "百", false)
      else if s1.1 ≠ "" ∧ 0 < jsMod segV 1000 then (s1.1, true) else s1
    let shi : ℤ := ⌊jsMod segV 100 / 10⌋
    let s3 : String × Bool :=
      if 0 < shi then
        ((if s2.2 then s2.1 ++ "零" else s2.1) ++
          (if shi = 1 ∧ index = 0 ∧ segCount = 1 then "十" else jsIdxZ shi ++ "十"), false)
      else if s2.1 ≠ "" ∧ 0 < jsMod segV 100 then (s2.1, true) else s2
    let ge : ℚ := jsMod segV 10
    let s4 : String :=
      if 0 < ge then (if s3.2 then s3.1 ++ "零" else s3.1) ++ jsIdxQ ge else s3.1
    s4 ++ (if index = 1 then "万" else if index = 2 then "亿" else "")

/-- `numberToChinese(num)` from `formData.ts` on the string form of its
argument (`String(num)`): empty or non-numeric input returns the empty
string; zero returns 零; otherwise the absolute value is cut into 4-digit
segments, each rendered and suffixed with 万/亿, and a negative input is
prefixed with 负. -/
def numberToChinese (s : String) : String :=
  if s = "" ∨ (jsNumberOf s).isNone then ""
  else
    let numValue := (jsNumberOf s).getD 0
    if numValue = 0 then "零"
    else
      let value := |numValue|
      let segments := ntcSegments value
      let texts := segments.mapIdx (fun i seg => ntcSegText segments.length i seg)
      let result := String.join texts.reverse
      if numValue < 0 then "负" ++ result else result

/-! ## coordtransform.ts

The transforms are parameterized over the `Math` primitives they call
(`sin`, `cos`, `sqrt`): IEEE transcendental functions have no exact
rational embedding, but every claim we settle here is independent of their
values. -/

structure JsMath where
  sin : ℚ → ℚ
  cos : ℚ → ℚ
  sqrt : ℚ → ℚ

def X_PI : ℚ := 3.14159265358979324 * 3000.0 / 180.0

def PI : ℚ := 3.1415926535897932384626

def A : ℚ := 6378245.0

def EE : ℚ := 0.00669342162296594323

/-- `out_of_china(lng, lat)`. -/
def out_of_china (lng lat : ℚ) : Bool :=
  !(lng > 73.66 && lng < 135.05 && lat > 3.86 && lat < 53.55)

/-- `transformLng(lng, lat)`. -/
def transformLng (m : JsMath) (lng lat : ℚ) : ℚ :=
  300.0 + lng + 2.0 * lat + 0.1 * lng * lng + 0.1 * lng * lat + 0.1 * m.sqrt |lng| +
    (20.0 * m.sin (6.0 * lng * PI) + 20.0 * m.sin (2.0 * lng * PI)) * 2.0 / 3.0 +
    (20.0 * m.sin (lng * PI) + 40.0 * m.sin (lng / 3.0 * PI)) * 2.0 / 3.0 +
    (150.0 * m.sin (lng / 12.0 * PI) + 300.0 * m.sin (lng / 30.0 * PI)) * 2.0 / 3.0

/-- `transformLat(lng, lat)`. -/
def transformLat (m : JsMath) (lng lat : ℚ) : ℚ :=
  -100.0 + 2.0 * lng + 3.0 * lat + 0.2 * lat * lat + 0.1 * lng * lat + 0.2 * m.sqrt |lng| +
    (20.0 * m.sin (6.0 * lng * PI) + 20.0 * m.sin (2.0 * lng * PI)) * 2.0 / 3.0 +
    (20.0 * m.sin (lat * PI) + 40.0 * m.sin (lat / 3.0 * PI)) * 2.0 / 3.0 +
    (160.0 * m.sin (lat / 12.0 * PI) + 320 * m.sin (lat * PI / 30.0)) * 2.0 / 3.0

/-- `wgs84togcj02(lng, lat)`. -/
def wgs84togcj02 (m : JsMath) (lng lat : ℚ) : ℚ × ℚ :=
  if out_of_china lng lat then (lng, lat)
  else
    let dlat0 := transformLat m (lng - 105.0) (lat - 35.0)
    let dlng0 := transformLng m (lng - 105.0) (lat - 35.0)
    let radlat := lat / 180.0 * PI
    let magic0 := m.sin radlat
    let magic := 1 - EE * magic0 * magic0
    let sqrtmagic := m.sqrt magic
    let dlat := dlat0 * 180.0 / (A * (1 - EE) / (magic * sqrtmagic) * PI)
    let dlng := dlng0 * 180.0 / (A / sqrtmagic * m.cos radlat * PI)
    (lng + dlng, lat + dlat)

/-- `gcj02towgs84(lng, lat)`: computes the same forward deltas and reflects
the forward-corrected point through the input. -/
def gcj02towgs84 (m : JsMath) (lng lat : ℚ) : ℚ × ℚ :=
  if out_of_china lng lat then (lng, lat)
  else
    let dlat0 := transformLat m (lng - 105.0) (lat - 35.0)
    let dlng0 := transformLng m (lng - 105.0) (lat - 35.0)
    let radlat := lat / 180.0 * PI
    let magic0 := m.sin radlat
    let magic := 1 - EE * magic0 * magic0
    let sqrtmagic := m.sqrt magic
    let dlat := dlat0 * 180.0 / (A * (1 - EE) / (magic * sqrtmagic) * PI)
    let dlng := dlng0 * 180.0 / (A / sqrtmagic * m.cos radlat * PI)
    let mglat := lat + dlat
    let mglng := lng + dlng
    (lng * 2 - mglng, lat * 2 - mglat)

/-- The output alphabet of `priceUppercase`. -/
def amountAlphabet : List Char :=
  ['负', '零', '壹', '贰', '叁', '肆', '伍', '陆', '柒', '捌', '玖', '拾', '佰', '仟',
   '万', '亿', '元', '角', '分', '厘', '毫', '整']

/-- Adjacent-pair predicate: no 壹 immediately followed by 拾. -/
def pairOk : Char → Char → Prop := fun a b => ¬(a = '壹' ∧ b = '拾')

instance pairOk_decidable : ∀ a b, Decidable (pairOk a b) := fun a b =>
  inferInstanceAs (Decidable ¬(a = '壹' ∧ b = '拾'))

/-! ## Helper lemmas -/

theorem chunk4_flatten {α : Type} : ∀ l : List α, (chunk4 l).flatten = l := by
  intro l
  induction l using chunk4.induct with
  | case1 => rfl
  | case2 a => rfl
  | case3 a b => rfl
  | case4 a b c => rfl
  | case5 a b c d rest ih => simp [chunk4, ih]

theorem chunk4_len {α : Type} : ∀ l : List α, ∀ c ∈ chunk4 l, c.length ≤ 4 := by
  intro l
  induction l using chunk4.induct with
  | case1 => simp [chunk4]
  | case2 a => simp [chunk4]
  | case3 a b => simp [chunk4]
  | case4 a b c => simp [chunk4]
  | case5 a b c d rest ih =>
    intro c hc
    simp only [chunk4, List.mem_cons] at hc
    rcases hc with h | h
    · simp [h]
    · exact ih c h

theorem chunk4_count {α : Type} :
    ∀ (l : List α) (n : ℕ), l.length ≤ 4 * n → (chunk4 l).length ≤ n := by
  intro l
  induction l using chunk4.induct with
  | case1 => intro n h; simp [chunk4]
  | case2 a => intro n h; simp [chunk4]; simp at h; omega
  | case3 a b => intro n h; simp [chunk4]; simp at h; omega
  | case4 a b c => intro n h; simp [chunk4]; simp at h; omega
  | case5 a b c d rest ih =>
    intro n h
    simp only [chunk4, List.length_cons]
    simp only [List.length_cons] at h
    have := ih (n - 1) (by omega)
    omega

theorem chunk4_mem {α : Type} (l : List α) (x : α) (c : List α) (hc : c ∈ chunk4 l)
    (hx : x ∈ c) : x ∈ l := by
  rw [← chunk4_flatten l]
  exact List.mem_flatten.mpr ⟨c, hc, hx⟩

theorem chunk4_of_mem {α : Type} (l : List α) (x : α) (hx : x ∈ l) :
    ∃ c ∈ chunk4 l, x ∈ c := by
  rw [← chunk4_flatten l] at hx
  exact List.mem_flatten.mp hx

theorem parseDigit_of_isDigit {c : Char} (h : c.isDigit = true) :
    parseDigit c = some (c.toNat - 48) ∧ c.toNat - 48 < 10 := by
  refine ⟨by simp [parseDigit, h], ?_⟩
  simp [Char.isDigit] at h
  obtain ⟨h1, h2⟩ := h
  have h4 : c.val.toNat ≤ 57 := h2
  simp [Char.toNat]
  omega

theorem parseDigit_ne_zero {c : Char} (h : c.isDigit = true) (h0 : c ≠ '0') :
    c.toNat - 48 ≠ 0 := by
  simp [Char.isDigit] at h
  obtain ⟨ha, hb⟩ := h
  have h4 : 48 ≤ c.val.toNat := ha
  have h5 : c.val.toNat ≠ 48 := by
    intro e
    exact h0 (Char.ext (UInt32.ext e))
  simp [Char.toNat]
  omega

theorem string_append_ne_left {a b : String} (h : a ≠ "") : a ++ b ≠ "" := by
  intro e
  apply h
  have hd : a.data ++ b.data = [] := by
    have := congrArg String.data e
    rwa [String.data_append] at this
  exact String.ext (List.append_eq_nil.mp hd).1

theorem append_chars {a b : String} (ha : ∀ x ∈ a.data, x ∈ amountAlphabet)
    (hb : ∀ x ∈ b.data, x ∈ amountAlphabet) : ∀ x ∈ (a ++ b).data, x ∈ amountAlphabet := by
  intro x hx
  rw [String.data_append] at hx
  rcases List.mem_append.mp hx with h | h
  exacts [ha x h, hb x h]

theorem ite_chars {P : Prop} [Decidable P] {a b : String}
    (ha : ∀ x ∈ a.data, x ∈ amountAlphabet) (hb : ∀ x ∈ b.data, x ∈ amountAlphabet) :
    ∀ x ∈ (if P then a else b).data, x ∈ amountAlphabet := by
  split
  exacts [ha, hb]

theorem jsNums_digit_chars {k : ℕ} (hk : k < 10) :
    ∀ x ∈ (jsNums (some k)).data, x ∈ amountAlphabet := by
  interval_cases k <;> decide

theorem jsUnits_chars {p : ℕ} (hp : p ≤ 3) :
    ∀ x ∈ (jsUnits p).data, x ∈ amountAlphabet := by
  interval_cases p <;> decide

theorem jsBigUnits_chars (g : ℕ) : ∀ x ∈ (jsBigUnits g).data, x ∈ amountAlphabet := by
  unfold jsBigUnits
  split
  · decide
  · split <;> decide

theorem jsDecUnits_chars {i : ℕ} (hi : i ≤ 3) :
    ∀ x ∈ (jsDecUnits i).data, x ∈ amountAlphabet := by
  interval_cases i <;> decide

theorem convertGroupAux_chars :
    ∀ (ds : List (Option ℕ)) (pos : ℕ) (gr : String) (hv nz : Bool),
      ds.length + pos ≤ 4 →
      (∀ d ∈ ds, ∃ k, d = some k ∧ k < 10) →
      (∀ x ∈ gr.data, x ∈ amountAlphabet) →
      ∀ x ∈ (convertGroupAux ds pos (gr, hv, nz)).1.data, x ∈ amountAlphabet := by
  intro ds
  induction ds with
  | nil => intro pos gr hv nz _ _ hgr; simpa [convertGroupAux] using hgr
  | cons d rest ih =>
    intro pos gr hv nz hlen hds hgr
    obtain ⟨k, hdk, hk⟩ := hds d (List.mem_cons_self d rest)
    have hrest : ∀ d2 ∈ rest, ∃ k2, d2 = some k2 ∧ k2 < 10 :=
      fun d2 h2 => hds d2 (List.mem_cons_of_mem d h2)
    have hlen2 : rest.length + (pos + 1) ≤ 4 := by
      simp only [List.length_cons] at hlen; omega
    have hpos : pos ≤ 3 := by
      simp only [List.length_cons] at hlen; omega
    have hzero : ∀ x ∈ ("零" : String).data, x ∈ amountAlphabet := by decide
    have hshi : ∀ x ∈ ("拾" : String).data, x ∈ amountAlphabet := by decide
    have hnumsd : ∀ x ∈ (jsNums d).data, x ∈ amountAlphabet := by
      rw [hdk]; exact jsNums_digit_chars hk
    have hgr1 : ∀ x ∈ (if nz ∧ hv then "零" ++ gr else gr).data, x ∈ amountAlphabet :=
      ite_chars (append_chars hzero hgr) hgr
    simp only [convertGroupAux]
    by_cases h0 : d ≠ some 0
    · rw [if_pos h0]
      exact ih (pos + 1) _ true false hlen2 hrest
        (ite_chars (append_chars hshi hgr1)
          (append_chars (append_chars hnumsd (jsUnits_chars hpos)) hgr1))
    · rw [if_neg h0]
      split
      · exact ih (pos + 1) gr hv true hlen2 hrest hgr
      · exact ih (pos + 1) gr hv nz hlen2 hrest hgr

theorem convertIntegerAux_chars :
    ∀ (gs : List (List (Option ℕ))) (gIdx : ℕ) (res : String),
      (∀ g ∈ gs, g.length ≤ 4 ∧ ∀ d ∈ g, ∃ k, d = some k ∧ k < 10) →
      (∀ x ∈ res.data, x ∈ amountAlphabet) →
      ∀ x ∈ (convertIntegerAux gs gIdx res).data, x ∈ amountAlphabet := by
  intro gs
  induction gs with
  | nil => intro gIdx res _ hres; simpa [convertIntegerAux] using hres
  | cons g rest ih =>
    intro gIdx res hgs hres
    obtain ⟨hglen, hgd⟩ := hgs g (List.mem_cons_self g rest)
    have hrest : ∀ g2 ∈ rest, g2.length ≤ 4 ∧ ∀ d ∈ g2, ∃ k, d = some k ∧ k < 10 :=
      fun g2 h2 => hgs g2 (List.mem_cons_of_mem g h2)
    have hst : ∀ x ∈ (convertGroupAux g 0 ("", false, false)).1.data, x ∈ amountAlphabet :=
      convertGroupAux_chars g 0 "" false false (by omega) hgd (by decide)
    have hzero : ∀ x ∈ ("零" : String).data, x ∈ amountAlphabet := by decide
    have hgr2 : ∀ x ∈ (if (convertGroupAux g 0 ("", false, false)).2.1 ∧ 0 < gIdx then
        (convertGroupAux g 0 ("", false, false)).1 ++ jsBigUnits gIdx
      else (convertGroupAux g 0 ("", false, false)).1).data, x ∈ amountAlphabet :=
      ite_chars (append_chars hst (jsBigUnits_chars gIdx)) hst
    simp only [convertIntegerAux]
    exact ih (gIdx + 1) _ hrest
      (ite_chars (append_chars hgr2 (ite_chars (append_chars hzero hres) hres)) hres)

theorem convertInteger_chars (s : String) (hs : ∀ c ∈ s.data, c.isDigit) :
    ∀ x ∈ (convertInteger s).data, x ∈ amountAlphabet := by
  unfold convertInteger
  split
  · decide
  · apply convertIntegerAux_chars _ 0 "" ?_ (by decide)
    intro g hg
    refine ⟨chunk4_len _ g hg, ?_⟩
    intro d hd
    have hmem : d ∈ (s.data.map parseDigit).reverse := chunk4_mem _ d g hg hd
    rw [List.mem_reverse, List.mem_map] at hmem
    obtain ⟨c, hc, hcd⟩ := hmem
    obtain ⟨he, hlt⟩ := parseDigit_of_isDigit (hs c hc)
    exact ⟨c.toNat - 48, by rw [← hcd, he], hlt⟩

theorem convertDecimalAux_chars :
    ∀ (l : List Char) (i : ℕ), l.length + i ≤ 4 → (∀ c ∈ l, c.isDigit) →
      ∀ x ∈ (convertDecimalAux l i).data, x ∈ amountAlphabet := by
  intro l
  induction l with
  | nil => intro i _ _; simp [convertDecimalAux]
  | cons c rest ih =>
    intro i hlen hdig
    have hi : i ≤ 3 := by simp only [List.length_cons] at hlen; omega
    have hlen2 : rest.length + (i + 1) ≤ 4 := by simp only [List.length_cons] at hlen; omega
    have hdig2 : ∀ c2 ∈ rest, c2.isDigit := fun c2 h2 => hdig c2 (List.mem_cons_of_mem c h2)
    obtain ⟨he, hlt⟩ := parseDigit_of_isDigit (hdig c (List.mem_cons_self c rest))
    simp only [convertDecimalAux]
    intro x hx
    rw [String.data_append] at hx
    rcases List.mem_append.mp hx with h | h
    · revert h
      split
      · intro h
        rw [String.data_append] at h
        rcases List.mem_append.mp h with h2 | h2
        · rw [he] at h2; exact jsNums_digit_chars hlt x h2
        · exact jsDecUnits_chars hi x h2
      · intro h; simp at h
    · exact ih (i + 1) hlen2 hdig2 x h

theorem convertDecimal_chars (s : String) (hs : ∀ c ∈ s.data, c.isDigit) :
    ∀ x ∈ (convertDecimal s).data, x ∈ amountAlphabet := by
  unfold convertDecimal
  apply convertDecimalAux_chars _ 0 ?_ ?_
  · have := List.length_take_le 4 s.data
    omega
  · intro c hc
    exact hs c (List.mem_of_mem_take hc)

/-! ## Claim theorems: concrete evaluations -/

/-- C1: `priceUppercase` fails to insert the 零 placeholder when the zeros
preceding a nonzero digit span a 4-digit group boundary: 100001 renders as
拾万壹元整 with no 零 at all, although the final 壹 follows four zeros. -/
theorem c1_priceUppercase_missing_zero_across_groups :
    priceUppercase false "100001" "" = "拾万壹元整" ∧
      '零' ∉ (priceUppercase false "100001" "").data :=
  ⟨by decide, by decide⟩

/-- C4: `priceUppercase` on `NaN` does not return the empty string: the
missing guard lets `parseInt` produce `NaN` digits, whose array lookups
concatenate as "undefined".  `numberToChinese` does have the guard and
returns the empty string on non-numeric input. -/
theorem c4_priceUppercase_nan_garbage :
    priceUppercase false "NaN" "" = "undefined佰undefined拾undefined元整" ∧
      numberToChinese "abc" = "" :=
  ⟨by decide, by decide⟩

/-- C5 counterexample: 110000 spans two groups and its tens-of-万 digit 1 is
still rendered as bare 拾, not 壹拾: the output is 拾壹万元整 and contains
no 壹拾, contradicting the claim that the bare-拾 special case applies only
to single-group amounts. -/
theorem c5_counterexample_110000 :
    priceUppercase false "110000" "" = "拾壹万元整" ∧
      ¬ ['壹', '拾'] <:+: (priceUppercase false "110000" "").data :=
  ⟨by decide, by decide⟩

/-- C9 counterexample: the zero amount ignores the suffix argument: the
`num === 0` early return produces 零元整 even when the suffix is the empty
string, so `priceUppercase(0, "")` still ends in 整. -/
theorem c9_counterexample_zero_amount :
    priceUppercase false "0" "" "" = "零元整" ∧
      (priceUppercase false "0" "" "").data.getLast? = some '整' :=
  ⟨by decide, by decide⟩

/-- C2: the private `getDecimalPlaces` of `formData.ts` used by the four
arithmetic helpers never decodes an exponent: on 1e-7 it returns 0 (the
exported `getDecimalPlaces` of `amount.ts` returns 7 as the claim states),
so `addition(1e-7, 0)` scales by 10^0 = 1 and returns 0 instead of 1e-7. -/
theorem c2_addition_exponent_scale_bug :
    getDecimalPlacesFD ⟨1 / 10 ^ 7, "1e-7"⟩ = 0 ∧
      getDecimalPlacesAmount ⟨1 / 10 ^ 7, "1e-7"⟩ = 7 ∧
      addition ⟨1 / 10 ^ 7, "1e-7"⟩ ⟨0, "0"⟩ none = 0 := by
  refine ⟨rfl, ?_, ?_⟩
  · unfold getDecimalPlacesAmount
    rw [if_neg (by norm_num)]
    decide
  · have h : addition ⟨1 / 10 ^ 7, "1e-7"⟩ ⟨0, "0"⟩ none =
        ((jsRound ((1 / 10 ^ 7 : ℚ) * 10 ^ 0) + jsRound ((0 : ℚ) * 10 ^ 0) : ℤ) : ℚ) / 10 ^ 0 :=
      rfl
    rw [h]
    norm_num [jsRound]

/-- C3: `divisionOperation` raises its division-by-zero error exactly when
the divisor is 0, and otherwise returns the quotient of the two rounded
scaled operands, optionally rounded to `decimal` places. -/
theorem c3_divisionOperation_error_iff_zero (a b : JsNum) (decimal : Option ℕ) :
    (divisionOperation a b decimal = Except.error "Division by zero is not allowed" ↔
      b.val = 0) ∧
    (b.val ≠ 0 →
      divisionOperation a b decimal = Except.ok (
        let m := max (getDecimalPlacesFD a) (getDecimalPlacesFD b)
        let r := ((jsRound (a.val * 10 ^ m) : ℤ) : ℚ) / ((jsRound (b.val * 10 ^ m) : ℤ) : ℚ)
        match decimal with
        | some d => if 0 < d then ((jsRound (r * 10 ^ d) : ℤ) : ℚ) / 10 ^ d else r
        | none => r)) := by
  unfold divisionOperation
  constructor
  · by_cases h : b.val = 0 <;> simp [h]
  · intro h
    simp [h]

/-- C3 witness: 4.2 / 2.1 succeeds with a nonzero divisor. -/
theorem c3_divisionOperation_witness :
    (⟨21 / 10, "2.1"⟩ : JsNum).val ≠ 0 ∧
      divisionOperation ⟨42 / 10, "4.2"⟩ ⟨21 / 10, "2.1"⟩ none = Except.ok 2 := by
  have hb : (⟨21 / 10, "2.1"⟩ : JsNum).val ≠ 0 := by norm_num
  refine ⟨hb, ?_⟩
  have h := (c3_divisionOperation_error_iff_zero ⟨42 / 10, "4.2"⟩ ⟨21 / 10, "2.1"⟩ none).2 hb
  rw [h]
  have h1 : getDecimalPlacesFD ⟨42 / 10, "4.2"⟩ = 1 := rfl
  have h2 : getDecimalPlacesFD ⟨21 / 10, "2.1"⟩ = 1 := rfl
  simp only [h1, h2]
  norm_num [jsRound]

/-- C6: `gcj02towgs84` is exactly the reflection of the forward transform
through the input: outside China it is the identity, and inside China it
returns `2 * input - wgs84togcj02(input)` componentwise, for every
interpretation of the transcendental `Math` primitives. -/
theorem c6_gcj02towgs84_reflects_forward (m : JsMath) (lng lat : ℚ) :
    gcj02towgs84 m lng lat =
      if out_of_china lng lat then (lng, lat)
      else (2 * lng - (wgs84togcj02 m lng lat).1, 2 * lat - (wgs84togcj02 m lng lat).2) := by
  by_cases h : out_of_china lng lat
  · simp [gcj02towgs84, h]
  · simp only [gcj02towgs84, wgs84togcj02, h, Bool.false_eq_true, if_false]
    simp only [Prod.mk.injEq]
    constructor <;> ring

/-- C8 counterexample: with the second operand rendered in exponential
notation (5e-10, zero counted places), the scale becomes 10^9 and the scaled
operand lands exactly on one half, where half-up rounding is asymmetric:
`addition(0.123456789, 5e-10)` adds 1 ulp of the scale while
`subtraction(0.123456789, -5e-10)` does not, so the sign-flip identity
fails. -/
theorem c8_counterexample_exponential_notation :
    addition ⟨123456789 / 10 ^ 9, "0.123456789"⟩ ⟨1 / (2 * 10 ^ 9), "5e-10"⟩ none ≠
      subtraction ⟨123456789 / 10 ^ 9, "0.123456789"⟩
        (jsNeg ⟨1 / (2 * 10 ^ 9), "5e-10"⟩) none := by
  have h1 : addition ⟨123456789 / 10 ^ 9, "0.123456789"⟩ ⟨1 / (2 * 10 ^ 9), "5e-10"⟩ none =
      ((jsRound ((123456789 / 10 ^ 9 : ℚ) * 10 ^ 9) +
        jsRound ((1 / (2 * 10 ^ 9) : ℚ) * 10 ^ 9) : ℤ) : ℚ) / 10 ^ 9 := rfl
  have h2 : subtraction ⟨123456789 / 10 ^ 9, "0.123456789"⟩
        (jsNeg ⟨1 / (2 * 10 ^ 9), "5e-10"⟩) none =
      ((jsRound ((123456789 / 10 ^ 9 : ℚ) * 10 ^ 9) -
        jsRound ((-(1 / (2 * 10 ^ 9)) : ℚ) * 10 ^ 9) : ℤ) : ℚ) / 10 ^ 9 := rfl
  rw [h1, h2]
  norm_num [jsRound]

/-- C10: on any input made of digit strings (the split rendering of a finite
amount whose decimal representation has no exponent marker), every character
of the output of `priceUppercase` is drawn from the fixed alphabet
负零壹贰叁肆伍陆柒捌玖拾佰仟万亿元角分厘毫整. -/
theorem c10_priceUppercase_alphabet (neg : Bool) (ip dp : String)
    (hip : ∀ c ∈ ip.data, c.isDigit) (hdp : ∀ c ∈ dp.data, c.isDigit) :
    ∀ x ∈ (priceUppercase neg ip dp).data, x ∈ amountAlphabet := by
  unfold priceUppercase
  split
  · decide
  · have hint := convertInteger_chars ip hip
    have hdec := convertDecimal_chars dp hdp
    have hfu : ∀ x ∈ ("负" : String).data, x ∈ amountAlphabet := by decide
    have hyuan : ∀ x ∈ ("元" : String).data, x ∈ amountAlphabet := by decide
    have hzheng : ∀ x ∈ ("整" : String).data, x ∈ amountAlphabet := by decide
    have hempty : ∀ x ∈ ("" : String).data, x ∈ amountAlphabet := by decide
    have hr1 : ∀ x ∈ (if neg = true then "负" else "").data, x ∈ amountAlphabet :=
      ite_chars hfu hempty
    exact ite_chars
      (append_chars (append_chars (append_chars hr1 hint) hyuan)
        (ite_chars (ite_chars hzheng hempty) hdec))
      (append_chars hr1 hdec)

/-- C10 witness: the alphabet theorem applied to the amount -105.3. -/
theorem c10_priceUppercase_alphabet_witness :
    (∀ c ∈ ("105" : String).data, c.isDigit) ∧ (∀ c ∈ ("3" : String).data, c.isDigit) ∧
      ∀ x ∈ (priceUppercase true "105" "3").data, x ∈ amountAlphabet :=
  ⟨by decide, by decide, c10_priceUppercase_alphabet true "105" "3" (by decide) (by decide)⟩

theorem jsNums_ne (d : Option ℕ) : jsNums d ≠ "" := by
  rcases d with _ | k
  · decide
  · by_cases hk : k < 10
    · interval_cases k <;> decide
    · show ["零", "壹", "贰", "叁", "肆", "伍", "陆", "柒", "捌", "玖"].getD k "undefined" ≠ ""
      rw [List.getD_eq_default]
      · decide
      · simp; omega

theorem convertGroupAux_ne :
    ∀ (ds : List (Option ℕ)) (pos : ℕ) (gr : String) (hv nz : Bool),
      gr ≠ "" ∨ (∃ d ∈ ds, d ≠ some 0) →
      (convertGroupAux ds pos (gr, hv, nz)).1 ≠ "" := by
  intro ds
  induction ds with
  | nil =>
    intro pos gr hv nz h
    rcases h with h | ⟨d, hd, _⟩
    · simpa [convertGroupAux] using h
    · exact absurd hd (List.not_mem_nil d)
  | cons d rest ih =>
    intro pos gr hv nz h
    simp only [convertGroupAux]
    by_cases h0 : d ≠ some 0
    · rw [if_pos h0]
      apply ih (pos + 1) _ true false
      left
      split
      · exact string_append_ne_left (by decide)
      · exact string_append_ne_left (string_append_ne_left (jsNums_ne d))
    · rw [if_neg h0]
      have h2 : gr ≠ "" ∨ ∃ d2 ∈ rest, d2 ≠ some 0 := by
        rcases h with h | ⟨d2, hd2, hd2n⟩
        · exact Or.inl h
        · rcases List.mem_cons.mp hd2 with rfl | hmem
          · exact absurd hd2n h0
          · exact Or.inr ⟨d2, hmem, hd2n⟩
      split
      · exact ih (pos + 1) gr hv true h2
      · exact ih (pos + 1) gr hv nz h2

theorem convertGroupAux_hv :
    ∀ (ds : List (Option ℕ)) (pos : ℕ) (gr : String) (hv nz : Bool),
      hv = true ∨ (∃ d ∈ ds, d ≠ some 0) →
      (convertGroupAux ds pos (gr, hv, nz)).2.1 = true := by
  intro ds
  induction ds with
  | nil =>
    intro pos gr hv nz h
    rcases h with h | ⟨d, hd, _⟩
    · simpa [convertGroupAux] using h
    · exact absurd hd (List.not_mem_nil d)
  | cons d rest ih =>
    intro pos gr hv nz h
    simp only [convertGroupAux]
    by_cases h0 : d ≠ some 0
    · rw [if_pos h0]
      exact ih (pos + 1) _ true false (Or.inl rfl)
    · rw [if_neg h0]
      have h2 : hv = true ∨ ∃ d2 ∈ rest, d2 ≠ some 0 := by
        rcases h with h | ⟨d2, hd2, hd2n⟩
        · exact Or.inl h
        · rcases List.mem_cons.mp hd2 with rfl | hmem
          · exact absurd hd2n h0
          · exact Or.inr ⟨d2, hmem, hd2n⟩
      split
      · exact ih (pos + 1) gr hv true h2
      · exact ih (pos + 1) gr hv nz h2

theorem convertGroupAux_hv_ne :
    ∀ (ds : List (Option ℕ)) (pos : ℕ) (gr : String) (hv nz : Bool),
      (hv = true → gr ≠ "") →
      (convertGroupAux ds pos (gr, hv, nz)).2.1 = true →
      (convertGroupAux ds pos (gr, hv, nz)).1 ≠ "" := by
  intro ds
  induction ds with
  | nil => intro pos gr hv nz h hh; simp only [convertGroupAux] at hh ⊢; exact h hh
  | cons d rest ih =>
    intro pos gr hv nz h
    simp only [convertGroupAux]
    by_cases h0 : d ≠ some 0
    · rw [if_pos h0]
      apply ih (pos + 1) _ true false
      intro _
      split
      · exact string_append_ne_left (by decide)
      · exact string_append_ne_left (string_append_ne_left (jsNums_ne d))
    · rw [if_neg h0]
      split
      · exact ih (pos + 1) gr hv true h
      · exact ih (pos + 1) gr hv nz h

theorem convertIntegerAux_ne :
    ∀ (gs : List (List (Option ℕ))) (gIdx : ℕ) (res : String),
      res ≠ "" ∨ (∃ g ∈ gs, ∃ d ∈ g, d ≠ some 0) →
      convertIntegerAux gs gIdx res ≠ "" := by
  intro gs
  induction gs with
  | nil =>
    intro gIdx res h
    rcases h with h | ⟨g, hg, _⟩
    · simpa [convertIntegerAux] using h
    · exact absurd hg (List.not_mem_nil g)
  | cons g rest ih =>
    intro gIdx res h
    simp only [convertIntegerAux]
    apply ih (gIdx + 1)
    have hgr2ne : (convertGroupAux g 0 ("", false, false)).2.1 = true →
        (if (convertGroupAux g 0 ("", false, false)).2.1 ∧ 0 < gIdx then
          (convertGroupAux g 0 ("", false, false)).1 ++ jsBigUnits gIdx
        else (convertGroupAux g 0 ("", false, false)).1) ≠ "" := by
      intro hhv
      have hne := convertGroupAux_hv_ne g 0 "" false false (by simp) hhv
      split
      · exact string_append_ne_left hne
      · exact hne
    rcases h with h | ⟨g2, hg2, hd2⟩
    · left
      split
      · exact string_append_ne_left (hgr2ne (by assumption))
      · exact h
    · rcases List.mem_cons.mp hg2 with rfl | hmem
      · obtain ⟨d, hd, hdn⟩ := hd2
        have hhv := convertGroupAux_hv g2 0 "" false false (Or.inr ⟨d, hd, hdn⟩)
        left
        rw [if_pos hhv]
        exact string_append_ne_left (hgr2ne hhv)
      · right
        exact ⟨g2, hmem, hd2⟩

theorem convertInteger_ne (s : String) (h0 : s ≠ "0") (hne : s ≠ "")
    (hip : ∀ c ∈ s.data, c.isDigit) (hz : ∃ c ∈ s.data, c ≠ '0') :
    convertInteger s ≠ "" := by
  unfold convertInteger
  rw [if_neg (by tauto)]
  apply convertIntegerAux_ne
  right
  obtain ⟨c, hc, hcz⟩ := hz
  have hdig := hip c hc
  obtain ⟨he, _⟩ := parseDigit_of_isDigit hdig
  have hmem : parseDigit c ∈ (s.data.map parseDigit).reverse := by
    rw [List.mem_reverse]
    exact List.mem_map_of_mem parseDigit hc
  obtain ⟨g, hg, hdg⟩ := chunk4_of_mem _ (parseDigit c) hmem
  refine ⟨g, hg, parseDigit c, hdg, ?_⟩
  rw [he]
  intro e
  injection e with e2
  exact parseDigit_ne_zero hdig hcz e2

/-- C9 (amended): for every nonzero exact integer amount, the suffix argument
of `priceUppercase` behaves as claimed: with the default suffix 整 the output
is the integer rendering followed by 元整, and with the empty-string suffix
the trailing 整 is dropped.  (The zero amount is the exception recorded in
the counterexample: its early return ignores the suffix.) -/
theorem c9_priceUppercase_suffix (neg : Bool) (ip : String)
    (hip : ∀ c ∈ ip.data, c.isDigit) (h0 : ip ≠ "0") (hne : ip ≠ "")
    (hz : ∃ c ∈ ip.data, c ≠ '0') :
    priceUppercase neg ip "" = (if neg then "负" else "") ++ convertInteger ip ++ "元" ++ "整" ∧
      priceUppercase neg ip "" "" = (if neg then "负" else "") ++ convertInteger ip ++ "元" := by
  have hcne : convertInteger ip ≠ "" := convertInteger_ne ip h0 hne hip hz
  have hni : ¬(ip = "0" ∧ ("" : String) = "") := fun h => h0 h.1
  have hcd : convertDecimal "" = "" := rfl
  constructor
  · simp only [priceUppercase, if_neg hni, hcd, if_pos hcne]
    simp [h0]
  · simp only [priceUppercase, if_neg hni, hcd, if_pos hcne]
    simp [h0]

/-- C9 witness: the suffix theorem applied to the amount 1000. -/
theorem c9_priceUppercase_suffix_witness :
    ("1000" : String) ≠ "0" ∧ (∃ c ∈ ("1000" : String).data, c ≠ '0') ∧
      (priceUppercase false "1000" "" =
          (if false then "负" else "") ++ convertInteger "1000" ++ "元" ++ "整" ∧
        priceUppercase false "1000" "" "" =
          (if false then "负" else "") ++ convertInteger "1000" ++ "元") :=
  ⟨by decide, by decide,
    c9_priceUppercase_suffix false "1000" (by decide) (by decide) (by decide) (by decide)⟩

theorem splitDot1_cons_ne {c : Char} (hc : c ≠ '.') (l : List Char) :
    splitDot1 (c :: l) = splitDot1 l := by
  simp [splitDot1, List.dropWhile_cons, hc]

theorem placesData_cons_ne {c : Char} (hc : c ≠ '.') (l : List Char) :
    (if '.' ∈ c :: l then (splitDot1 (c :: l)).length else 0) =
      (if '.' ∈ l then (splitDot1 l).length else 0) := by
  rw [splitDot1_cons_ne hc]
  by_cases hm : '.' ∈ l
  · rw [if_pos hm, if_pos (List.mem_cons_of_mem c hm)]
  · rw [if_neg hm, if_neg ?_]
    intro hcc
    rcases List.mem_cons.mp hcc with h | h
    · exact hc h.symm
    · exact hm h

theorem places_jsNeg (n : JsNum) : getDecimalPlacesFD (jsNeg n) = getDecimalPlacesFD n := by
  unfold jsNeg negStr getDecimalPlacesFD
  split
  · next h => rw [h]
  · split
    · next hh =>
      obtain ⟨t, ht⟩ : ∃ t, n.repr.data = '-' :: t := by
        rcases hd : n.repr.data with _ | ⟨c, t⟩
        · rw [hd] at hh; simp at hh
        · rw [hd] at hh
          simp at hh
          exact ⟨t, by rw [hh]⟩
      rw [ht]
      simp only [List.drop_succ_cons, List.drop_zero]
      exact (placesData_cons_ne (by decide) t).symm
    · rw [String.data_append]
      exact placesData_cons_ne (by decide) _

theorem jsRound_neg_of_fract_ne {x : ℚ} (h : Int.fract x ≠ 1 / 2) :
    jsRound (-x) = -jsRound x := by
  unfold jsRound
  have hf0 : 0 ≤ Int.fract x := Int.fract_nonneg x
  have hf1 : Int.fract x < 1 := Int.fract_lt_one x
  have hxf : (⌊x⌋ : ℚ) + Int.fract x = x := Int.floor_add_fract x
  rcases lt_or_gt_of_ne h with hlt | hgt
  · have h1 : ⌊x + 1 / 2⌋ = ⌊x⌋ := by
      rw [Int.floor_eq_iff]
      refine ⟨by linarith, ?_⟩
      linarith
    have h2 : ⌊-x + 1 / 2⌋ = -⌊x⌋ := by
      rw [Int.floor_eq_iff]
      constructor
      · push_cast
        linarith
      · push_cast
        linarith
    rw [h1, h2]
  · have h1 : ⌊x + 1 / 2⌋ = ⌊x⌋ + 1 := by
      rw [Int.floor_eq_iff]
      constructor
      · push_cast
        linarith
      · push_cast
        linarith
    have h2 : ⌊-x + 1 / 2⌋ = -(⌊x⌋ + 1) := by
      rw [Int.floor_eq_iff]
      constructor
      · push_cast
        linarith
      · push_cast
        linarith
    rw [h1, h2]

/-- C8 (amended): `addition(a, b)` equals `subtraction(a, -b)` exactly, with
`-b` the IEEE negation, whenever half-up rounding treats the scaled second
operand symmetrically — that is, whenever the quantity `Math.round` is
applied to (`b` times 10 to the larger of the two counted fractional-place
counts) is not exactly half way between two integers.  Negation changes
neither the counted places nor any other part of the computation.  At a
half-integer the identity fails by one unit of the scale: through the zero
counted places of exponential notation (see the counterexample), or, in
IEEE arithmetic, through product rounding even for plain-decimal operands
(0.1 against 425764.7018777176, whose scaled product rounds to
4257647018777176.5). -/
theorem c8_addition_eq_subtraction_neg_sym (a b : JsNum)
    (h : Int.fract (b.val * 10 ^ max (getDecimalPlacesFD a) (getDecimalPlacesFD b)) ≠ 1 / 2) :
    addition a b none = subtraction a (jsNeg b) none := by
  simp only [addition, subtraction, places_jsNeg]
  have hr : jsRound ((jsNeg b).val * 10 ^ max (getDecimalPlacesFD a) (getDecimalPlacesFD b)) =
      -jsRound (b.val * 10 ^ max (getDecimalPlacesFD a) (getDecimalPlacesFD b)) := by
    show jsRound (-b.val * _) = _
    rw [neg_mul]
    exact jsRound_neg_of_fract_ne h
  rw [hr]
  push_cast
  ring

/-- C8 witness: the symmetric case at 0.1 + 2.5, whose scaled second operand
25 is an integer. -/
theorem c8_addition_eq_subtraction_neg_sym_witness :
    Int.fract ((⟨25 / 10, "2.5"⟩ : JsNum).val *
        10 ^ max (getDecimalPlacesFD ⟨1 / 10, "0.1"⟩) (getDecimalPlacesFD ⟨25 / 10, "2.5"⟩)) ≠
      1 / 2 ∧
    addition ⟨1 / 10, "0.1"⟩ ⟨25 / 10, "2.5"⟩ none =
      subtraction ⟨1 / 10, "0.1"⟩ (jsNeg ⟨25 / 10, "2.5"⟩) none := by
  have hmax : max (getDecimalPlacesFD (⟨1 / 10, "0.1"⟩ : JsNum))
      (getDecimalPlacesFD (⟨25 / 10, "2.5"⟩ : JsNum)) = 1 := rfl
  have hfr : Int.fract ((⟨25 / 10, "2.5"⟩ : JsNum).val *
      10 ^ max (getDecimalPlacesFD (⟨1 / 10, "0.1"⟩ : JsNum))
        (getDecimalPlacesFD (⟨25 / 10, "2.5"⟩ : JsNum))) ≠ 1 / 2 := by
    rw [hmax]
    show Int.fract ((25 / 10 : ℚ) * 10 ^ 1) ≠ 1 / 2
    norm_num [Int.fract]
  exact ⟨hfr, c8_addition_eq_subtraction_neg_sym ⟨1 / 10, "0.1"⟩ ⟨25 / 10, "2.5"⟩ hfr⟩

theorem chain_two {a b : Char} (h : pairOk a b) : List.Chain' pairOk [a, b] :=
  List.chain'_cons.mpr ⟨h, List.chain'_singleton b⟩

theorem chain_ite {P : Prop} [Decidable P] {a b : String}
    (ha : List.Chain' pairOk a.data) (hb : List.Chain' pairOk b.data) :
    List.Chain' pairOk (if P then a else b).data := by
  split
  exacts [ha, hb]

theorem chain_append_left {l1 l2 : List Char} (h1 : List.Chain' pairOk l1)
    (h2 : List.Chain' pairOk l2) (hx : ∀ x ∈ l1.getLast?, x ≠ '壹') :
    List.Chain' pairOk (l1 ++ l2) := by
  rw [List.chain'_append]
  exact ⟨h1, h2, fun x hx1 y _ e => hx x hx1 e.1⟩

theorem chain_append_right {l1 l2 : List Char} (h1 : List.Chain' pairOk l1)
    (h2 : List.Chain' pairOk l2) (hy : ∀ y ∈ l2.head?, y ≠ '拾') :
    List.Chain' pairOk (l1 ++ l2) := by
  rw [List.chain'_append]
  exact ⟨h1, h2, fun x _ y hy2 e => hy y hy2 e.2⟩

theorem chain_pairOk_no_infix {l : List Char} (h : List.Chain' pairOk l) :
    ¬ ['壹', '拾'] <:+: l := by
  rintro ⟨s, t, rfl⟩
  rw [List.chain'_append] at h
  obtain ⟨h1, -, -⟩ := h
  rw [List.chain'_append] at h1
  obtain ⟨-, h2, -⟩ := h1
  rw [List.chain'_cons] at h2
  exact h2.1 ⟨rfl, rfl⟩

theorem jsBigUnits_chain (g : ℕ) : List.Chain' pairOk (jsBigUnits g).data := by
  unfold jsBigUnits
  split
  · exact List.chain'_singleton _
  · split
    · exact List.chain'_singleton _
    · exact List.chain'_nil

theorem jsBigUnits_head (g : ℕ) : ∀ y ∈ (jsBigUnits g).data.head?, y ≠ '拾' := by
  unfold jsBigUnits
  split
  · decide
  · split <;> decide

theorem jsBigUnits_last {g : ℕ} (h1 : 1 ≤ g) (h2 : g ≤ 2) :
    ∀ x ∈ (jsBigUnits g).data.getLast?, x ≠ '壹' := by
  interval_cases g <;> decide

theorem jsBigUnits_ne_nil {g : ℕ} (h1 : 1 ≤ g) (h2 : g ≤ 2) : (jsBigUnits g).data ≠ [] := by
  interval_cases g <;> decide

theorem convertGroupAux_chain :
    ∀ (ds : List (Option ℕ)) (pos : ℕ) (gr : String) (hv nz : Bool),
      ds.length + pos ≤ 4 →
      (∀ d ∈ ds, ∃ k, d = some k ∧ k < 10) →
      List.Chain' pairOk gr.data →
      (pos = 0 → gr = "" ∧ hv = false) →
      List.Chain' pairOk (convertGroupAux ds pos (gr, hv, nz)).1.data := by
  intro ds
  induction ds with
  | nil => intro pos gr hv nz _ _ hgr _; simpa [convertGroupAux] using hgr
  | cons d rest ih =>
    intro pos gr hv nz hlen hds hgr hp0
    obtain ⟨k, hdk, hk⟩ := hds d (List.mem_cons_self d rest)
    have hrest : ∀ d2 ∈ rest, ∃ k2, d2 = some k2 ∧ k2 < 10 :=
      fun d2 h2 => hds d2 (List.mem_cons_of_mem d h2)
    have hlen2 : rest.length + (pos + 1) ≤ 4 := by
      simp only [List.length_cons] at hlen; omega
    have hpos : pos ≤ 3 := by
      simp only [List.length_cons] at hlen; omega
    have hgr1 : List.Chain' pairOk (if nz ∧ hv then "零" ++ gr else gr).data := by
      split
      · rw [String.data_append]
        refine chain_append_left (List.chain'_singleton _) hgr ?_
        intro x hx
        have he : ("零" : String).data.getLast? = some '零' := by decide
        rw [he] at hx
        simp at hx
        subst hx
        decide
      · exact hgr
    simp only [convertGroupAux]
    by_cases h0 : d ≠ some 0
    · rw [if_pos h0]
      apply ih (pos + 1) _ true false hlen2 hrest ?_ (fun h => absurd h (Nat.succ_ne_zero pos))
      split
      · rw [String.data_append]
        refine chain_append_left (List.chain'_singleton _) hgr1 ?_
        intro x hx
        have he : ("拾" : String).data.getLast? = some '拾' := by decide
        rw [he] at hx
        simp at hx
        subst hx
        decide
      · next hnot =>
        rw [hdk] at hnot ⊢
        rw [String.data_append, String.data_append]
        rcases Nat.lt_or_ge pos 1 with hply | hply
        · have hpz : pos = 0 := by omega
          obtain ⟨hge, hhv⟩ := hp0 hpz
          rw [hpz, hge, hhv]
          simp only [Bool.false_eq_true, and_false, if_false,
            show (jsUnits 0).data = [] from rfl, show ("" : String).data = [] from rfl,
            List.append_nil]
          interval_cases k <;> exact List.chain'_singleton _
        · refine chain_append_left ?_ hgr1 ?_
          · interval_cases pos <;> interval_cases k <;>
              first
                | exact chain_two (by decide)
                | exact absurd ⟨rfl, rfl⟩ hnot
          · intro x hx
            interval_cases pos <;>
              · rw [List.getLast?_append_of_ne_nil _ (by decide)] at hx
                revert x
                decide
    · rw [if_neg h0]
      have hp02 : pos + 1 = 0 → gr = "" ∧ hv = false := fun h => absurd h (Nat.succ_ne_zero pos)
      split
      · exact ih (pos + 1) gr hv true hlen2 hrest hgr hp02
      · exact ih (pos + 1) gr hv nz hlen2 hrest hgr hp02

theorem convertIntegerAux_chain :
    ∀ (gs : List (List (Option ℕ))) (gIdx : ℕ) (res : String),
      gs.length + gIdx ≤ 3 →
      (∀ g ∈ gs, g.length ≤ 4 ∧ ∀ d ∈ g, ∃ k, d = some k ∧ k < 10) →
      List.Chain' pairOk res.data →
      (gIdx = 0 → res = "") →
      List.Chain' pairOk (convertIntegerAux gs gIdx res).data := by
  intro gs
  induction gs with
  | nil => intro gIdx res _ _ hres _; simpa [convertIntegerAux] using hres
  | cons g rest ih =>
    intro gIdx res hlen hgs hres h0
    obtain ⟨hglen, hgd⟩ := hgs g (List.mem_cons_self g rest)
    have hrest : ∀ g2 ∈ rest, g2.length ≤ 4 ∧ ∀ d ∈ g2, ∃ k, d = some k ∧ k < 10 :=
      fun g2 h2 => hgs g2 (List.mem_cons_of_mem g h2)
    have hlen2 : rest.length + (gIdx + 1) ≤ 3 := by
      simp only [List.length_cons] at hlen; omega
    have hgi : gIdx ≤ 2 := by
      simp only [List.length_cons] at hlen; omega
    have hst : List.Chain' pairOk (convertGroupAux g 0 ("", false, false)).1.data :=
      convertGroupAux_chain g 0 "" false false (by omega) hgd List.chain'_nil
        (fun _ => ⟨rfl, rfl⟩)
    have hgr2 : List.Chain' pairOk (if (convertGroupAux g 0 ("", false, false)).2.1 ∧ 0 < gIdx then
        (convertGroupAux g 0 ("", false, false)).1 ++ jsBigUnits gIdx
      else (convertGroupAux g 0 ("", false, false)).1).data := by
      split
      · rw [String.data_append]
        exact chain_append_right hst (jsBigUnits_chain gIdx) (jsBigUnits_head gIdx)
      · exact hst
    have hzr : List.Chain' pairOk (("零" ++ res) : String).data := by
      rw [String.data_append]
      refine chain_append_left (List.chain'_singleton _) hres ?_
      intro x hx
      have he : ("零" : String).data.getLast? = some '零' := by decide
      rw [he] at hx
      simp at hx
      subst hx
      decide
    simp only [convertIntegerAux]
    apply ih (gIdx + 1) _ hlen2 hrest ?_ (fun h => absurd h (Nat.succ_ne_zero gIdx))
    split
    · next hhv =>
      by_cases hr0 : res = ""
      · subst hr0
        rw [String.data_append]
        refine chain_append_right hgr2 (chain_ite hzr hres) ?_
        intro y hy
        rw [if_neg (fun hc => hc.1 rfl)] at hy
        have he2 : ("" : String).data.head? = none := rfl
        rw [he2] at hy
        simp at hy
      · have hgpos : 0 < gIdx := by
          rcases Nat.eq_zero_or_pos gIdx with hz | hz
          · exact absurd (h0 hz) hr0
          · exact hz
        rw [String.data_append]
        refine chain_append_left hgr2 (chain_ite hzr hres) ?_
        intro x hx
        rw [if_pos ⟨hhv, hgpos⟩] at hx
        rw [String.data_append,
          List.getLast?_append_of_ne_nil _ (jsBigUnits_ne_nil hgpos hgi)] at hx
        exact jsBigUnits_last hgpos hgi x hx
    · exact hres

theorem convertInteger_chain (s : String) (hlen : s.data.length ≤ 12)
    (hdig : ∀ c ∈ s.data, c.isDigit) :
    List.Chain' pairOk (convertInteger s).data := by
  unfold convertInteger
  split
  · exact List.chain'_nil
  · apply convertIntegerAux_chain _ 0 "" ?_ ?_ List.chain'_nil (fun _ => rfl)
    · have h4 := chunk4_count ((s.data.map parseDigit).reverse) 3 ?_
      · omega
      · simp only [List.length_reverse, List.length_map]
        omega
    · intro g hg
      refine ⟨chunk4_len _ g hg, ?_⟩
      intro d hd
      have hmem : d ∈ (s.data.map parseDigit).reverse := chunk4_mem _ d g hg hd
      rw [List.mem_reverse, List.mem_map] at hmem
      obtain ⟨c, hc, hcd⟩ := hmem
      obtain ⟨he, hlt⟩ := parseDigit_of_isDigit (hdig c hc)
      exact ⟨c.toNat - 48, by rw [← hcd, he], hlt⟩

/-- C5 (amended): the bare-拾 rendering of a tens digit 1 applies inside
every 4-digit group, not only in a single-group amount: for every integer
part of at most 12 digits (the range covered by the units 万 and 亿) the
substring 壹拾 never occurs in the output of `convertInteger`.  It is
`numberToChinese`, not `priceUppercase`, that restricts the bare tens
rendering to single-segment numbers. -/
theorem c5_bare_shi_every_group (s : String) (hlen : s.data.length ≤ 12)
    (hdig : ∀ c ∈ s.data, c.isDigit) :
    ¬ ['壹', '拾'] <:+: (convertInteger s).data :=
  chain_pairOk_no_infix (convertInteger_chain s hlen hdig)

/-- C5 witness: the amended theorem applied to 110000. -/
theorem c5_bare_shi_witness :
    ("110000" : String).data.length ≤ 12 ∧ (∀ c ∈ ("110000" : String).data, c.isDigit) ∧
      ¬ ['壹', '拾'] <:+: (convertInteger "110000").data :=
  ⟨by decide, by decide, c5_bare_shi_every_group "110000" (by decide) (by decide)⟩

end NuanUtils
